import Mathlib

/-!
Verification of the QueryBridge GraphQL-to-XSB translator
(`src/querybridge/translator.py`).

The Python source is shallowly embedded below.  Python strings are Lean
`String`s; Python lists are Lean `List`s; Python dicts and sets used by the
translator are association lists / membership lists (only their lookup,
insertion-order and membership behaviour is ever observed by the source);
the `graphql-core` AST nodes consumed by `parse_query` are modelled by the
`Selection` / `FieldAst` inductive types.  Recursion through fragment
spreads is not structural in the source (a Python `RecursionError` is
reachable), so the query-building functions take a fuel parameter and
return `none` when the fuel runs out; every theorem about them quantifies
over the fuel.

All string operations are implemented over `String.data` (lists of
characters), matching Python string semantics, which operate on code
points.
-/

namespace QueryBridge

set_option maxRecDepth 100000

/-! ### Character-list string helpers (Python string semantics) -/

/-- Is the first list a prefix of the second (Python `str.startswith`)? -/
def charsPrefix : List Char → List Char → Bool
  | [], _ => true
  | _ :: _, [] => false
  | a :: as, b :: bs => a == b && charsPrefix as bs

/-- Does the first list occur as a contiguous sublist of the second? -/
def charsSub (pat : List Char) : List Char → Bool
  | [] => charsPrefix pat []
  | l :: rest => charsPrefix pat (l :: rest) || charsSub pat rest

/-- Python `s.startswith(pre)`. -/
def strStartsWith (s pre : String) : Bool := charsPrefix pre.data s.data

/-- Python `s.endswith(suf)`. -/
def strEndsWith (s suf : String) : Bool := charsPrefix suf.data.reverse s.data.reverse

/-- Does `pat` occur as a substring of `s` (Python `pat in s`)? -/
def strContains (s pat : String) : Bool := charsSub pat.data s.data

/-- Python `s.upper()` (ASCII, which is all the source ever feeds it). -/
def strUpper (s : String) : String := ⟨s.data.map Char.toUpper⟩

/-- Python `s.lower()` (ASCII, which is all the source ever feeds it). -/
def strLower (s : String) : String := ⟨s.data.map Char.toLower⟩

/-- Python `s[n:]` (slicing is by code point). -/
def strDrop (s : String) (n : Nat) : String := ⟨s.data.drop n⟩

/-- Python `s[:-1]`. -/
def strDropLast (s : String) : String := ⟨s.data.dropLast⟩

/-- Split a string on a separator character (used to read lines of the
generated program back out of the final text). -/
def splitOnChar (sep : Char) : List Char → List (List Char)
  | [] => [[]]
  | c :: rest =>
    match splitOnChar sep rest with
    | [] => if c == sep then [[], []] else [[c]]
    | g :: gs => if c == sep then [] :: g :: gs else (c :: g) :: gs

/-- The lines of a string (split on newline). -/
def strLines (s : String) : List String := (splitOnChar '\n' s.data).map String.mk

/-! ### Decimal rendering of natural numbers (Python `str(n)`)

Structural in a fuel argument so that concrete values reduce in the
kernel; `natToStr_fuel_spec` shows the fuel `n + 1` always suffices and
characterises the output (nonempty, all decimal digits, and decoding it
returns `n`), which pins `natToStr` to ordinary decimal notation. -/

def toDecimalAux : Nat → Nat → List Char
  | 0, _ => []
  | fuel + 1, n =>
    if n < 10 then [Nat.digitChar n]
    else toDecimalAux fuel (n / 10) ++ [Nat.digitChar (n % 10)]

def natToStr (n : Nat) : String := ⟨toDecimalAux (n + 1) n⟩

/-- Decode a digit string back to the number it denotes. -/
def decodeDec (l : List Char) : Nat := l.foldl (fun a c => 10 * a + (c.toNat - 48)) 0

theorem digitChar_toNat : ∀ d, d < 10 → (Nat.digitChar d).toNat = 48 + d := by decide

theorem digitChar_isDigit : ∀ d, d < 10 → (Nat.digitChar d).isDigit = true := by decide

theorem decodeDec_append_digit (l : List Char) (c : Char) :
    decodeDec (l ++ [c]) = 10 * decodeDec l + (c.toNat - 48) := by
  simp [decodeDec]

theorem natToStr_fuel_spec : ∀ fuel n, n < fuel →
    toDecimalAux fuel n ≠ [] ∧
    (∀ c ∈ toDecimalAux fuel n, c.isDigit = true) ∧
    decodeDec (toDecimalAux fuel n) = n := by
  intro fuel
  induction fuel with
  | zero => intro n h; omega
  | succ fuel ih =>
    intro n hn
    by_cases h10 : n < 10
    · refine ⟨by simp [toDecimalAux, h10], ?_, ?_⟩
      · intro c hc
        simp [toDecimalAux, h10] at hc
        subst hc
        exact digitChar_isDigit n h10
      · have := digitChar_toNat n h10
        simp [toDecimalAux, h10, decodeDec, this]
    · have hdiv : n / 10 < fuel := by
        have h1 : n / 10 < n := Nat.div_lt_self (by omega) (by omega)
        omega
      obtain ⟨hne, hdig, hdec⟩ := ih (n / 10) hdiv
      refine ⟨by simp [toDecimalAux, h10], ?_, ?_⟩
      · intro c hc
        simp only [toDecimalAux, if_neg h10, List.mem_append, List.mem_singleton] at hc
        rcases hc with hc | hc
        · exact hdig c hc
        · subst hc
          exact digitChar_isDigit _ (Nat.mod_lt _ (by omega))
      · simp only [toDecimalAux, if_neg h10]
        rw [decodeDec_append_digit, hdec, digitChar_toNat _ (Nat.mod_lt _ (by omega))]
        omega

theorem natToStr_ne_nil (n : Nat) : (natToStr n).data ≠ [] :=
  (natToStr_fuel_spec (n + 1) n (by omega)).1

theorem natToStr_all_digits (n : Nat) : ∀ c ∈ (natToStr n).data, c.isDigit = true :=
  (natToStr_fuel_spec (n + 1) n (by omega)).2.1

theorem decodeDec_natToStr (n : Nat) : decodeDec (natToStr n).data = n :=
  (natToStr_fuel_spec (n + 1) n (by omega)).2.2

theorem natToStr_inj {m n : Nat} (h : natToStr m = natToStr n) : m = n := by
  have : (natToStr m).data = (natToStr n).data := by rw [h]
  calc m = decodeDec (natToStr m).data := (decodeDec_natToStr m).symm
    _ = decodeDec (natToStr n).data := by rw [this]
    _ = n := decodeDec_natToStr n

/-! ### Extracting a variable's mint counter from its rendered name -/

theorem takeWhile_append_all {p : Char → Bool} :
    ∀ (l r : List Char), (∀ x ∈ l, p x = true) → (l ++ r).takeWhile p = l ++ r.takeWhile p := by
  intro l r hl
  induction l with
  | nil => simp
  | cons a as ih =>
    have ha : p a = true := hl a (by simp)
    have has : ∀ x ∈ as, p x = true := fun x hx => hl x (by simp [hx])
    simp [List.takeWhile, ha, ih has]

theorem takeWhile_all {p : Char → Bool} (l : List Char) (h : ∀ x ∈ l, p x = true) :
    l.takeWhile p = l := by
  have := takeWhile_append_all l [] h
  simpa using this

/-- The maximal run of decimal digits at the end of a character list. -/
def trailDigits (l : List Char) : List Char := (l.reverse.takeWhile Char.isDigit).reverse

/-- The mint counter encoded at the end of a generated variable name. -/
def vcnt (s : String) : Nat := decodeDec (trailDigits s.data)

theorem trailDigits_append (l d : List Char) (sep : Char) (hsep : sep.isDigit = false)
    (hd : ∀ c ∈ d, c.isDigit = true) :
    trailDigits (l ++ sep :: d) = d := by
  unfold trailDigits
  rw [List.reverse_append]
  have : (sep :: d).reverse = d.reverse ++ [sep] := by simp
  rw [this, List.append_assoc]
  rw [takeWhile_append_all d.reverse ([sep] ++ l.reverse) (by intro x hx; exact hd x (by simpa using hx))]
  simp [List.takeWhile, hsep]

/-! ### Minted variable names

`fresh_var` in `parse_query` renders `f"{base.upper()}_{next(var_counter)}"`. -/

/-- The variable name minted for `base` at counter value `n`. -/
def mkVarName (base : String) (n : Nat) : String := strUpper base ++ "_" ++ natToStr n

theorem vcnt_mkVarName (base : String) (n : Nat) : vcnt (mkVarName base n) = n := by
  unfold vcnt mkVarName
  have hdata : (strUpper base ++ "_" ++ natToStr n).data
      = (strUpper base).data ++ '_' :: (natToStr n).data := by
    simp [String.data_append]
  rw [hdata, trailDigits_append _ _ _ (by decide) (natToStr_all_digits n)]
  exact decodeDec_natToStr n

/-! ### Dotted paths and their last segment -/

/-- No `'.'` occurs in the string (true of every GraphQL field name). -/
def dotFree (s : String) : Bool := s.data.all (fun c => c != '.')

/-- `joinPath pp name` is `f"{parent_path}.{name}" if parent_path else name`. -/
def joinPath (pp name : String) : String := if pp = "" then name else pp ++ "." ++ name

/-- `b` is the final dot-separated segment of `p`. -/
def lastSegRel (p b : String) : Prop := p = b ∨ ∃ q, p = q ++ "." ++ b

/-- The final run of non-dot characters of a character list. -/
def lastSegData (p : String) : List Char := (p.data.reverse.takeWhile (fun c => c != '.')).reverse

theorem string_data_inj : ∀ {s t : String}, s.data = t.data → s = t := by
  intro ⟨l⟩ ⟨m⟩ h
  exact congrArg String.mk h

theorem lastSegRel_data {p b : String} (hb : dotFree b = true) (h : lastSegRel p b) :
    lastSegData p = b.data := by
  have hall : ∀ c ∈ b.data.reverse, (c != '.') = true := by
    intro c hc
    have := (List.all_eq_true.mp hb) c (by simpa using hc)
    simpa using this
  rcases h with h | ⟨q, h⟩
  · subst h
    unfold lastSegData
    rw [takeWhile_all _ hall]
    simp
  · subst h
    unfold lastSegData
    have hdata : (q ++ "." ++ b).data = q.data ++ '.' :: b.data := by
      simp [String.data_append]
    rw [hdata, List.reverse_append]
    have : ('.' :: b.data).reverse = b.data.reverse ++ ['.'] := by simp
    rw [this, List.append_assoc,
      takeWhile_append_all b.data.reverse (['.'] ++ q.data.reverse) hall]
    simp [List.takeWhile]

theorem lastSegRel_unique {p b1 b2 : String} (h1 : dotFree b1 = true) (h2 : dotFree b2 = true)
    (r1 : lastSegRel p b1) (r2 : lastSegRel p b2) : b1 = b2 := by
  apply string_data_inj
  rw [← lastSegRel_data h1 r1, ← lastSegRel_data h2 r2]

theorem lastSegRel_joinPath (pp name : String) : lastSegRel (joinPath pp name) name := by
  unfold joinPath lastSegRel
  by_cases h : pp = ""
  · simp [h]
  · exact Or.inr ⟨pp, by simp [h]⟩

/-! ### Data model (`SchemaType`, `QueryField`, `DemandInfo`)

`SchemaType` mirrors the tagged variant built by `parse_schema`:
scalar / object / list / non-null.  `QueryField` is the selection-tree
node built by `parse_query`; because the emitters recurse structurally
over it, the subfield sequence is the mutually defined `QFields` so that
all emitters are structurally recursive (and hence kernel-reducible). -/

inductive SchemaType where
  | scalar (name : String)
  | object (name : String) (fields : List (String × SchemaType))
  | list (elementType : SchemaType)
  | nonNull (innerType : SchemaType)
deriving Repr

mutual
inductive QueryField where
  | mk (name : String) (arguments : List (String × String)) (subfields : QFields)
       (parentVar : String) (childVar : String)
deriving Repr
inductive QFields where
  | nil
  | cons (f : QueryField) (fs : QFields)
deriving Repr
end

def QueryField.name : QueryField → String
  | .mk n _ _ _ _ => n

def QueryField.arguments : QueryField → List (String × String)
  | .mk _ a _ _ _ => a

def QueryField.subfields : QueryField → QFields
  | .mk _ _ s _ _ => s

def QueryField.parentVar : QueryField → String
  | .mk _ _ _ p _ => p

def QueryField.childVar : QueryField → String
  | .mk _ _ _ _ c => c

/-- `QueryField.is_scalar`: a field with no subfields. -/
def QueryField.isScalar (f : QueryField) : Bool :=
  match f.subfields with
  | .nil => true
  | .cons _ _ => false

/-- `QueryField.bound_mask`: `"".join("B" for _ in arguments) or "_"`. -/
def bound_mask (args : List (String × String)) : String :=
  if args.isEmpty then "_" else String.join (args.map (fun _ => "B"))

def QFields.toList : QFields → List QueryField
  | .nil => []
  | .cons f fs => f :: fs.toList

def qfAppend : QFields → QFields → QFields
  | .nil, r => r
  | .cons f fs, r => .cons f (qfAppend fs r)

/-- `DemandInfo`: per-node record computed by `generate_demand_transformation`. -/
structure DemandInfo where
  applied : Bool := false
  reason : String := ""
  adornment : String := ""
  demandPred : String := ""
  magicPred : String := ""
deriving Repr, DecidableEq

/-- `DemandInfo.log_message`. -/
def DemandInfo.logMessage (i : DemandInfo) : String :=
  if i.applied then
    "Applied demand transformation \x27" ++ i.demandPred ++ "\x27 (" ++ i.adornment ++
      ") because " ++ i.reason
  else "No demand transformation applied"

/-- `format_value`: the translator only ever passes the stringified literals
stored in `QueryField.arguments`, i.e. Python `str` values, for which the
source returns the value wrapped in double quotes. -/
def format_value (v : String) : String := "\"" ++ v ++ "\""

/-! ### The `graphql-core` query AST consumed by `parse_query`

`ArgValue` models the argument value nodes: the constructors that carry a
string are exactly the node kinds owning a `.value` attribute (with the
Python stringification `str(value)` already applied: boolean nodes carry a
Python `bool`, rendered `"True"`/`"False"`; the numeric and string nodes
carry their source text).  Variables, list values and input objects have
no `.value` attribute. -/

inductive ArgValue where
  | strV (s : String)
  | intV (s : String)
  | floatV (s : String)
  | boolV (b : Bool)
  | enumV (s : String)
  | varV (name : String)
  | listV
  | objV
deriving Repr

/-- `str(arg.value.value)` for nodes with a `.value` attribute. -/
def argLit : ArgValue → Option String
  | .strV s => some s
  | .intV s => some s
  | .floatV s => some s
  | .boolV b => some (if b then "True" else "False")
  | .enumV s => some s
  | .varV _ => none
  | .listV => none
  | .objV => none

/-- The argument-extraction loop of `build_query_field`: arguments whose
value node has a `.value` attribute are kept, all others are skipped. -/
def extractArgs (args : List (String × ArgValue)) : List (String × String) :=
  args.filterMap (fun a => (argLit a.2).map (fun s => (a.1, s)))

mutual
inductive Selection where
  | fieldS (f : FieldAst)
  | fragS (name : String)
  | inlineS (sels : Selections)
deriving Repr
inductive Selections where
  | nil
  | cons (s : Selection) (rest : Selections)
deriving Repr
inductive FieldAst where
  | mk (alias? : Option String) (astName : String) (args : List (String × ArgValue))
       (selections : Selections)
deriving Repr
end

/-- The `FieldNode` members of a selection set (the translator inlines only
these when expanding a fragment spread or an inline fragment). -/
def fieldsOf : Selections → List FieldAst
  | .nil => []
  | .cons (.fieldS f) rest => f :: fieldsOf rest
  | .cons (.fragS _) rest => fieldsOf rest
  | .cons (.inlineS _) rest => fieldsOf rest

/-- A parsed query document: the selection sets of its operation
definitions and its fragment definitions, in source order. -/
structure Document where
  operations : List Selections
  fragments : List (String × Selections)
deriving Repr

/-- `fragment_map[name]`: a dict comprehension keyed by fragment name, so a
later definition overwrites an earlier one with the same name. -/
def lookupFrag (fm : List (String × Selections)) (n : String) : Option Selections :=
  match fm.reverse.find? (fun e => e.1 == n) with
  | some e => some e.2
  | none => none

/-! ### Variable allocation state of `parse_query` -/

/-- The closure state of `parse_query`: the `count(1)` counter and the
insertion-ordered `var_cache` mapping dotted paths to variable names. -/
structure PState where
  counter : Nat
  cache : List (String × String)
deriving Repr

/-- Lookup in `var_cache`. -/
def lookupC (cache : List (String × String)) (p : String) : Option String :=
  match cache.find? (fun e => e.1 == p) with
  | some e => some e.2
  | none => none

/-- `var_for_path`: return the cached variable for `p`, or mint a fresh one
from `base` and the next counter value. -/
def varForPath (p base : String) (st : PState) : String × PState :=
  match lookupC st.cache p with
  | some v => (v, st)
  | none => (mkVarName base st.counter, ⟨st.counter + 1, st.cache ++ [(p, mkVarName base st.counter)]⟩)

/-! ### `build_query_field`

Fuel-structural embedding of the recursive query builder.  Every
recursive call decrements the fuel; `none` means the fuel ran out or a
fragment spread named an undefined fragment (Python `KeyError`). -/

mutual
def buildField (fm : List (String × Selections)) :
    Nat → FieldAst → String → String → PState → Option (QueryField × PState)
  | 0, _, _, _, _ => none
  | fuel + 1, .mk al nm args sels, parentVar, parentPath, st =>
    let name := al.getD nm
    let path := joinPath parentPath name
    let r := varForPath path name st
    match buildSelections fm fuel sels r.1 path r.2 with
    | none => none
    | some (subs, st2) =>
      some (QueryField.mk name (extractArgs args) subs parentVar r.1, st2)

def buildSelections (fm : List (String × Selections)) :
    Nat → Selections → String → String → PState → Option (QFields × PState)
  | 0, _, _, _, _ => none
  | _ + 1, .nil, _, _, st => some (.nil, st)
  | fuel + 1, .cons (.fieldS f) rest, cv, path, st =>
    match buildField fm fuel f cv path st with
    | none => none
    | some (q, st1) =>
      match buildSelections fm fuel rest cv path st1 with
      | none => none
      | some (qs, st2) => some (.cons q qs, st2)
  | fuel + 1, .cons (.fragS n) rest, cv, path, st =>
    match lookupFrag fm n with
    | none => none
    | some fsels =>
      match buildFieldList fm fuel (fieldsOf fsels) cv path st with
      | none => none
      | some (qs1, st1) =>
        match buildSelections fm fuel rest cv path st1 with
        | none => none
        | some (qs2, st2) => some (qfAppend qs1 qs2, st2)
  | fuel + 1, .cons (.inlineS isels) rest, cv, path, st =>
    match buildFieldList fm fuel (fieldsOf isels) cv path st with
    | none => none
    | some (qs1, st1) =>
      match buildSelections fm fuel rest cv path st1 with
      | none => none
      | some (qs2, st2) => some (qfAppend qs1 qs2, st2)

def buildFieldList (fm : List (String × Selections)) :
    Nat → List FieldAst → String → String → PState → Option (QFields × PState)
  | 0, _, _, _, _ => none
  | _ + 1, [], _, _, st => some (.nil, st)
  | fuel + 1, f :: fs, cv, path, st =>
    match buildField fm fuel f cv path st with
    | none => none
    | some (q, st1) =>
      match buildFieldList fm fuel fs cv path st1 with
      | none => none
      | some (qs, st2) => some (.cons q qs, st2)
end

/-- The root-field loop of `parse_query`: for each operation definition,
build every top-level `FieldNode` with parent variable `"ROOT"` and empty
parent path (fragment spreads at the top level are skipped, exactly as in
the source, because only `FieldNode` selections are built). -/
def rootsOfOps (fm : List (String × Selections)) (fuel : Nat) :
    List Selections → PState → Option (List QueryField × PState)
  | [], st => some ([], st)
  | op :: ops, st =>
    match buildFieldList fm fuel (fieldsOf op) "ROOT" "" st with
    | none => none
    | some (qs, st1) =>
      match rootsOfOps fm fuel ops st1 with
      | none => none
      | some (rest, st2) => some (qs.toList ++ rest, st2)

/-- `parse_query` over an already-parsed document, returning the root
fields and (for the variable-allocation theorems) the final allocator
state.  The counter starts at 1 (`count(1)`) and the cache empty. -/
def parse_query (fuel : Nat) (doc : Document) : Option (List QueryField × PState) :=
  rootsOfOps doc.fragments fuel doc.operations ⟨1, []⟩

/-! ### `generate_demand_transformation`

The Python function appends to the `demands` and `rules` lists in place
and mutates the `seen_demand_rules` set; it never reads the two growing
lists (only `seen` is consulted, for the duplicate guards).  The
embedding therefore returns the NEWLY APPENDED demand lines and rule
lines (in order) together with the updated seen set and the `DemandInfo`;
the caller (`demandPhase` below, embedding the loop in
`generate_xsb_for_query`) appends them to the growing lists exactly as
the in-place mutation does. -/

mutual
def generate_demand_transformation (node : QueryField) (seen : List String) (depth : Nat) :
    List String × List String × List String × DemandInfo :=
  match node with
  | .mk nm args subs pv _cv =>
    if args.isEmpty && depth == 0 then ([], [], seen, {}) else
    let adornment := bound_mask args
    let demandPred := "demand_" ++ nm ++ "_" ++ adornment
    let magicPred := "m_" ++ nm ++ "_" ++ adornment
    let applyReason : Bool × String :=
      if !args.isEmpty then (true, "it has " ++ natToStr args.length ++ " bound argument(s)")
      else if depth > 0 then (true, "it\x27s a nested field at depth " ++ natToStr depth)
      else (false, "")
    if !applyReason.1 then
      ([], [], seen,
        { adornment := adornment, demandPred := demandPred, magicPred := magicPred })
    else
    let info : DemandInfo :=
      { applied := true, reason := applyReason.2, adornment := adornment,
        demandPred := demandPred, magicPred := magicPred }
    let seedStep : List String × List String :=
      if depth == 0 && !args.isEmpty then
        let boundValues := String.intercalate ", " (args.map (fun a => format_value a.2))
        let seed := demandPred ++ "(" ++ boundValues ++ ")."
        if seed ∈ seen then ([], seen)
        else (["% Seed demand with bound arguments for " ++ nm, seed], seen ++ [seed])
      else ([], seen)
    let newDemands := seedStep.1
    let seen1 := seedStep.2
    let magicStep : List String × List String × String :=
      if !args.isEmpty then
        let argsVals := String.intercalate ", " (args.map (fun a => format_value a.2))
        ([], seen1, magicPred ++ "(" ++ pv ++ ") :- " ++ demandPred ++ "(" ++ argsVals ++ ").")
      else
        let inner : List String × List String :=
          if depth > 0 then
            let demandRule := demandPred ++ "(" ++ pv ++ ") :- m_" ++ nm ++ "_ext(" ++ pv ++ ")."
            if demandRule ∈ seen1 then ([], seen1)
            else (["% Propagate demand to " ++ nm ++ " fields", demandRule],
                  seen1 ++ [demandRule])
          else ([], seen1)
        (inner.1, inner.2, magicPred ++ "(" ++ pv ++ ") :- " ++ demandPred ++ "(" ++ pv ++ ").")
    let newRules1 := magicStep.1
    let seen2 := magicStep.2.1
    let magicRule := magicStep.2.2
    let magicAdd : List String × List String :=
      if magicRule ∈ seen2 then ([], seen2)
      else (["% Magic predicate for " ++ nm, magicRule], seen2 ++ [magicRule])
    let subsStep := genDemandSubs nm pv magicPred subs magicAdd.2 depth 0
    (newDemands ++ subsStep.1, newRules1 ++ magicAdd.1 ++ subsStep.2.1, subsStep.2.2, info)

def genDemandSubs (parentName parentPv magicPred : String) (subs : QFields)
    (seen : List String) (depth : Nat) (i : Nat) :
    List String × List String × List String :=
  match subs with
  | .nil => ([], [], seen)
  | .cons sub rest =>
    let r := generate_demand_transformation sub seen (depth + 1)
    let subNewDemands := r.1
    let subNewRules := r.2.1
    let seen1 := r.2.2.1
    let subInfo := r.2.2.2
    let afterProp : List String × List String :=
      if subInfo.applied then
        let header : List String :=
          if i == 0 then ["% Propagate demand from " ++ parentName ++ " to its fields"]
          else []
        if !sub.isScalar then
          let propagate := subInfo.demandPred ++ "(" ++ sub.parentVar ++ ") :- " ++
            magicPred ++ "(" ++ parentPv ++ "), " ++ parentName ++ "_ext(" ++ parentPv ++
            ", " ++ sub.parentVar ++ ")."
          if propagate ∈ seen1 then (header, seen1)
          else (header ++ [propagate], seen1 ++ [propagate])
        else (header, seen1)
      else ([], seen1)
    let restStep := genDemandSubs parentName parentPv magicPred rest afterProp.2 depth (i + 1)
    (subNewDemands ++ restStep.1, subNewRules ++ afterProp.1 ++ restStep.2.1, restStep.2.2)
end

/-! ### `generate_predicate_rules` -/

/-- `head :- g1, ..., gn.` — exactly the f-string join used by the source
(`f"{pred_signature} :- {', '.join(body_parts)}."`). -/
def mkRule (sig : String) (body : List String) : String :=
  sig ++ " :- " ++ String.intercalate ", " body ++ "."

/-- The reserved lookup argument names of the filtered-collection
heuristic. -/
def lookupNames : List String := ["id", "name", "key", "slug", "code"]

/-- Any argument is a range filter (`min*`/`max*`) or a boolean literal. -/
def hasFilterArgs (args : List (String × String)) : Bool :=
  args.any (fun a => strStartsWith a.1 "min" || strStartsWith a.1 "max" ||
    strLower a.2 == "true" || strLower a.2 == "false")

/-- Any argument name is in the reserved lookup set. -/
def hasLookupArgs (args : List (String × String)) : Bool :=
  args.any (fun a => lookupNames.contains a.1)

/-- `field.name[:-1] if field.name.endswith("s") else field.name`. -/
def singularName (nm : String) : String := if strEndsWith nm "s" then strDropLast nm else nm

/-- The filter goals contributed by one argument (the per-argument loop of
`generate_predicate_rules`, evaluated against the possibly rebound parent
variable `pv2` and the node's child variable `cv`). -/
def argFilterGoals (pv2 cv : String) (a : String × String) : List String :=
  if strStartsWith a.1 "min" then
    let fn := strLower (strDrop a.1 3)
    [fn ++ "_ext(" ++ pv2 ++ ", " ++ strUpper fn ++ "_" ++ cv ++ ")",
     strUpper fn ++ "_" ++ cv ++ " @>= " ++ a.2]
  else if strStartsWith a.1 "max" then
    let fn := strLower (strDrop a.1 3)
    [fn ++ "_ext(" ++ pv2 ++ ", " ++ strUpper fn ++ "_" ++ cv ++ ")",
     strUpper fn ++ "_" ++ cv ++ " @=< " ++ a.2]
  else if strLower a.2 == "true" || strLower a.2 == "false" then
    [a.1 ++ "_ext(" ++ pv2 ++ ", " ++ strLower a.2 ++ ")"]
  else
    [a.1 ++ "_ext(" ++ pv2 ++ ", " ++ format_value a.2 ++ ")"]

mutual
/-- `generate_predicate_rules`.  The Python function mutates
`field.parent_var` in place for filtered collections; the functional
embedding therefore returns the updated node alongside the emitted rule
strings (the caller threads the updated tree into the answer
assembler, as the in-place mutation does in the source). -/
def generate_predicate_rules (f : QueryField) (d : Option DemandInfo) (path : String) :
    QueryField × List String :=
  match f with
  | .mk nm args subs pv cv =>
    let predName := path ++ nm ++ "_result"
    let scalar := match subs with | .nil => true | .cons _ _ => false
    let sig := if scalar then predName ++ "(" ++ pv ++ ", " ++ cv ++ ")"
               else predName ++ "(" ++ pv ++ ")"
    let demandGoals : List String :=
      match d with
      | some i => if i.applied then [i.magicPred ++ "(" ++ pv ++ ")"] else []
      | none => []
    let extPred := if scalar then nm ++ "_ext(" ++ pv ++ ", " ++ cv ++ ")"
                   else nm ++ "_ext(" ++ pv ++ ")"
    let collection : List String × String :=
      if !scalar && !args.isEmpty && hasFilterArgs args && !hasLookupArgs args then
        let sing := singularName nm
        let cur := strUpper sing ++ "_ID"
        ([sing ++ "_ext(" ++ pv ++ ", " ++ cur ++ ")"], cur)
      else ([], pv)
    let preFilters := collection.1
    let pv2 := collection.2
    let argFilters := args.flatMap (argFilterGoals pv2 cv)
    let rule := mkRule sig (demandGoals ++ [extPred] ++ preFilters ++ argFilters)
    let subsR := genPredRulesList subs (path ++ nm ++ "_")
    (QueryField.mk nm args subsR.1 pv2 cv, rule :: subsR.2)

/-- The subfield loop of `generate_predicate_rules`: every recursive call
passes `demand_info=None`. -/
def genPredRulesList (fs : QFields) (path : String) : QFields × List String :=
  match fs with
  | .nil => (.nil, [])
  | .cons f rest =>
    let r1 := generate_predicate_rules f none path
    let r2 := genPredRulesList rest path
    (.cons r1.1 r2.1, r1.2 ++ r2.2)
end

/-! ### `generate_answer_predicate` -/

mutual
/-- The `process_field` closure: accumulates answer-head variables for
scalar leaves and body goals for every node. -/
def processField (f : QueryField) (path parentPath : String)
    (bodyParts fieldVars : List String) : List String × List String :=
  match f with
  | .mk nm _args subs pv cv =>
    let currentPath := path ++ nm
    match subs with
    | .nil =>
      let varName := strUpper currentPath
      let fieldVars1 := fieldVars ++ [varName]
      let bodyParts1 :=
        if parentPath == "" then
          bodyParts ++ [nm ++ "_ext(ROOT, " ++ cv ++ ")", nm ++ "_result(ROOT, " ++ varName ++ ")"]
        else
          bodyParts ++ [parentPath ++ nm ++ "_result(" ++ pv ++ ", " ++ varName ++ ")"]
      (bodyParts1, fieldVars1)
    | .cons _ _ =>
      let bodyParts1 :=
        if parentPath == "" then
          bodyParts ++ [nm ++ "_ext(" ++ cv ++ ")", nm ++ "_result(ROOT)"]
        else
          bodyParts ++ [parentPath ++ nm ++ "_result(" ++ pv ++ ")"]
      processFieldList subs (currentPath ++ "_") (currentPath ++ "_") bodyParts1 fieldVars

def processFieldList (fs : QFields) (path parentPath : String)
    (bodyParts fieldVars : List String) : List String × List String :=
  match fs with
  | .nil => (bodyParts, fieldVars)
  | .cons f rest =>
    let r := processField f path parentPath bodyParts fieldVars
    processFieldList rest path parentPath r.1 r.2
end

/-- The per-root linking goals: `<name>_<sub.name>_result(<child_var>, <sub.child_var>)`
for every subfield of a root object field. -/
def linkGoals (nm cv : String) : QFields → List String
  | .nil => []
  | .cons sub rest =>
    (nm ++ "_" ++ sub.name ++ "_result(" ++ cv ++ ", " ++ sub.childVar ++ ")") ::
      linkGoals nm cv rest

/-- The root loop of `generate_answer_predicate` (Python truthiness of the
variable strings is non-emptiness). -/
def answerBody : List QueryField → List String × List String → List String × List String
  | [], acc => acc
  | f :: rest, acc =>
    let r := processField f "" "" acc.1 acc.2
    let b :=
      if !f.parentVar.isEmpty && !f.childVar.isEmpty && !f.isScalar then
        r.1 ++ linkGoals f.name f.childVar f.subfields
      else r.1
    answerBody rest (b, r.2)

/-- Order-preserving de-duplication of the body goals. -/
def uniquePreserve (l : List String) : List String :=
  l.foldl (fun acc p => if p ∈ acc then acc else acc ++ [p]) []

/-- The first root field whose arguments trigger the filtered-collection
splice (the loop `break`s only in that branch). -/
def findFilteredRoot : List QueryField → Option QueryField
  | [] => none
  | f :: rest =>
    if !f.arguments.isEmpty && hasFilterArgs f.arguments && !hasLookupArgs f.arguments then
      some f
    else findFilteredRoot rest

/-- `generate_answer_predicate` (the caller passes a fresh list, so the
result is exactly the list this returns: the comment is inserted before
the single appended rule by `rules.insert(-1, ...)`). -/
def generate_answer_predicate (rootFields : List QueryField) : List String :=
  let acc := answerBody rootFields ([], [])
  let bodyParts := acc.1
  let fieldVars := acc.2
  let uniqueBodyParts := uniquePreserve bodyParts
  if !fieldVars.isEmpty then
    let head := "ans(" ++ String.intercalate ", " fieldVars ++ ")"
    let finalParts :=
      match findFilteredRoot rootFields with
      | some f =>
        let sing := singularName f.name
        let plur := f.name
        let recordVar := strUpper sing ++ "_ID"
        let filteredParts := [plur ++ "_ext(ROOT)", plur ++ "_result(ROOT)",
          sing ++ "_ext(ROOT, " ++ recordVar ++ ")", strUpper sing ++ "_1 = " ++ recordVar]
        let otherParts := uniqueBodyParts.filter
          (fun p => !(strStartsWith p (plur ++ "_ext")) && !(strStartsWith p (plur ++ "_result")))
        filteredParts ++ otherParts
      | none => uniqueBodyParts
    ["% Final answer predicate combining all query results",
     head ++ " :- " ++ String.intercalate ", " finalParts ++ "."]
  else
    ["% Final answer predicate combining all query results", "ans :- true."]

/-! ### `generate_xsb_for_query` -/

/-- Python dict assignment `d[k] = v`: overwrite in place, else append. -/
def updateAssoc (m : List (String × DemandInfo)) (k : String) (v : DemandInfo) :
    List (String × DemandInfo) :=
  if m.any (fun e => e.1 == k) then m.map (fun e => if e.1 == k then (k, v) else e)
  else m ++ [(k, v)]

/-- Python `d.get(k)`. -/
def lookupAssoc (m : List (String × DemandInfo)) (k : String) : Option DemandInfo :=
  match m.find? (fun e => e.1 == k) with
  | some e => some e.2
  | none => none

/-- The demand loop of `generate_xsb_for_query`: threads the facts, rules
and seen set through every root field (appending each call\x27s newly
emitted lines) and collects `demand_info_map`. -/
def demandPhase : List QueryField → List String → List String → List String →
    List (String × DemandInfo) → List String × List String × List (String × DemandInfo)
  | [], facts, rules, _seen, map => (facts, rules, map)
  | f :: rest, facts, rules, seen, map =>
    let r := generate_demand_transformation f seen 0
    let map1 := if r.2.2.2.applied then updateAssoc map f.name r.2.2.2 else map
    demandPhase rest (facts ++ r.1) (rules ++ r.2.1) r.2.2.1 map1

/-- The predicate-rule loop of `generate_xsb_for_query`; returns the
(in-place mutated, here: rebuilt) root list together with the accumulated
`predicate_rules` lines. -/
def predPhase (map : List (String × DemandInfo)) :
    List QueryField → List String → List QueryField × List String
  | [], acc => ([], acc)
  | f :: rest, acc =>
    let d := lookupAssoc map f.name
    let acc1 := acc ++ ["\n% Rules for field: " ++ f.name]
    let r := generate_predicate_rules f d ""
    let rec1 := predPhase map rest (acc1 ++ r.2)
    (r.1 :: rec1.1, rec1.2)

/-- `generate_xsb_for_query`: the full compiler back end.  Note that the
`schema` argument is received but never consulted. -/
def generate_xsb_for_query (schema : List SchemaType) (query : List QueryField)
    (applyDemand : Bool) : String :=
  let headerSections : List String :=
    if !query.isEmpty then
      ["% XSB Datalog generated from GraphQL query with root fields: " ++
        String.intercalate ", " (query.map (fun f => f.name)) ++ "\n% " ++
        (if applyDemand then "With" else "Without") ++ " demand transformation"]
    else []
  let demandR : List String × List (String × DemandInfo) :=
    if applyDemand then
      let r := demandPhase query ["% Demand transformation facts and rules"] [] [] []
      if r.1.length > 1 || !r.2.1.isEmpty then
        ([String.intercalate "\n" r.1, String.intercalate "\n" r.2.1], r.2.2)
      else ([], r.2.2)
    else ([], [])
  let demandSections := demandR.1
  let map := demandR.2
  let predR := predPhase map query ["% Query field rules"]
  let answerRules := generate_answer_predicate predR.1
  let noteSections : List String :=
    if !map.isEmpty then
      [String.intercalate "\n"
        ("% Demand transformation summary" ::
          map.map (fun e => "% NOTE: " ++ e.2.logMessage))]
    else []
  String.intercalate "\n\n"
    (headerSections ++ demandSections ++
      [String.intercalate "\n" predR.2, String.intercalate "\n" answerRules] ++ noteSections)

/-! ### Concrete scenario inputs

The documents below are the parsed forms of the spec scenarios S1-S4
(`{ project { tagline } }`, `{ project(name: "GraphQL") { tagline } }`,
`{ users(minAge: 18, maxAge: 65) { name } }`), and `projectSchema` is what
`parse_schema` returns for
`type Project { tagline: String! } type Query { project: Project }`
(the `Query` type is skipped, `String!` is a non-null wrapper over the
named type). -/

def projectSchema : List SchemaType :=
  [SchemaType.object "Project" [("tagline", SchemaType.nonNull (SchemaType.scalar "String"))]]

def c1Doc : Document :=
  ⟨[Selections.cons (.fieldS (.mk none "project" []
      (Selections.cons (.fieldS (.mk none "tagline" [] .nil)) .nil))) .nil], []⟩

def c2Doc : Document :=
  ⟨[Selections.cons (.fieldS (.mk none "project" [("name", ArgValue.strV "GraphQL")]
      (Selections.cons (.fieldS (.mk none "tagline" [] .nil)) .nil))) .nil], []⟩

def c5Doc : Document :=
  ⟨[Selections.cons (.fieldS (.mk none "users"
      [("minAge", ArgValue.intV "18"), ("maxAge", ArgValue.intV "65")]
      (Selections.cons (.fieldS (.mk none "name" [] .nil)) .nil))) .nil], []⟩

/-- The root fields of a successful parse (all the parses below are proved
to succeed, so the default is never taken). -/
def parsedRoots (r : Option (List QueryField × PState)) : List QueryField :=
  match r with
  | some (q, _) => q
  | none => []

def c1Out : String := generate_xsb_for_query projectSchema (parsedRoots (parse_query 10 c1Doc)) false

def c2Out : String := generate_xsb_for_query projectSchema (parsedRoots (parse_query 10 c2Doc)) true

def c5Out : String := generate_xsb_for_query [] (parsedRoots (parse_query 10 c5Doc)) false

/-! ### Claim C1 -/

/-- C1 (counterexample): for the S1 schema and query with demand off, the
compiled output does NOT contain the rule
`project_tagline_result(PROJECT_1, TAGLINE_2) :- project_tagline_ext(PROJECT_1, TAGLINE_2).`
claimed by the spec (the predicate `project_tagline_ext` never occurs in
the output at all: the body predicate is built from the field name alone,
`tagline_ext`), and the claimed final answer rule
`ans(PROJECT_TAGLINE) :- project_ext(PROJECT_1), project_result(ROOT), project_tagline_result(PROJECT_1, PROJECT_TAGLINE).`
is not a line of the output either (the emitted `ans` rule carries a
fourth goal).  The third conjunct shows the output is the real compiled
program (the actual tagline rule is present), not an empty artifact. -/
theorem c1_counterexample :
    ((strLines c1Out).contains
      "project_tagline_result(PROJECT_1, TAGLINE_2) :- project_tagline_ext(PROJECT_1, TAGLINE_2)."
      = false) ∧
    (strContains c1Out "project_tagline_ext" = false) ∧
    ((strLines c1Out).contains
      "ans(PROJECT_TAGLINE) :- project_ext(PROJECT_1), project_result(ROOT), project_tagline_result(PROJECT_1, PROJECT_TAGLINE)."
      = false) ∧
    ((strLines c1Out).contains
      "project_tagline_result(PROJECT_1, TAGLINE_2) :- tagline_ext(PROJECT_1, TAGLINE_2)."
      = true) :=
  ⟨rfl, rfl, rfl, rfl⟩

/-- C1 (amended): for the S1 schema and query with demand off, the
compiled output contains the rule
`project_tagline_result(PROJECT_1, TAGLINE_2) :- tagline_ext(PROJECT_1, TAGLINE_2).`
(the rule head is path-prefixed but the body's external predicate is
built from the field name alone), and the final answer rule is
`ans(PROJECT_TAGLINE) :- project_ext(PROJECT_1), project_result(ROOT), project_tagline_result(PROJECT_1, PROJECT_TAGLINE), project_tagline_result(PROJECT_1, TAGLINE_2).`
(the claimed three goals plus the root-object linking goal
`project_tagline_result(PROJECT_1, TAGLINE_2)`). -/
theorem c1_amended :
    ((strLines c1Out).contains
      "project_tagline_result(PROJECT_1, TAGLINE_2) :- tagline_ext(PROJECT_1, TAGLINE_2)."
      = true) ∧
    ((strLines c1Out).filter (fun l => strStartsWith l "ans(") =
      ["ans(PROJECT_TAGLINE) :- project_ext(PROJECT_1), project_result(ROOT), project_tagline_result(PROJECT_1, PROJECT_TAGLINE), project_tagline_result(PROJECT_1, TAGLINE_2)."]) :=
  ⟨rfl, rfl⟩

/-! ### Claim C2 -/

/-- C2 (counterexample): compiling `{ project(name: "GraphQL") { tagline } }`
with demand enabled does emit the seed fact `demand_project_B("GraphQL").`,
but the magic rule claimed by the spec,
`m_project_B(PROJECT_1) :- demand_project_B("GraphQL").`, is not in the
output, and no `project_result` rule body begins with the claimed goal
`m_project_B(PROJECT_1)`: the magic rule and the prepended goal both use
the root node's parent variable `ROOT`, not its child variable
`PROJECT_1`. -/
theorem c2_counterexample :
    ((strLines c2Out).contains "demand_project_B(\"GraphQL\")." = true) ∧
    ((strLines c2Out).contains "m_project_B(PROJECT_1) :- demand_project_B(\"GraphQL\")."
      = false) ∧
    (strContains c2Out "m_project_B(PROJECT_1)" = false) :=
  ⟨rfl, rfl, rfl⟩

/-- C2 (amended): compiling `{ project(name: "GraphQL") { tagline } }` with
demand enabled emits the seed fact `demand_project_B("GraphQL").`, the
magic rule `m_project_B(ROOT) :- demand_project_B("GraphQL").`, and
prepends the goal `m_project_B(ROOT)` to the body of the `project_result`
rule (the variable is the root node's parent variable `ROOT`, not
`PROJECT_1`). -/
theorem c2_amended :
    ((strLines c2Out).contains "demand_project_B(\"GraphQL\")." = true) ∧
    ((strLines c2Out).contains "m_project_B(ROOT) :- demand_project_B(\"GraphQL\")." = true) ∧
    ((strLines c2Out).contains
      "project_result(ROOT) :- m_project_B(ROOT), project_ext(ROOT), name_ext(ROOT, \"GraphQL\")."
      = true) :=
  ⟨rfl, rfl, rfl⟩

/-! ### Claim C5 -/

/-- C5 (counterexample): for `{ users(minAge: 18, maxAge: 65) { name } }`
the `users_result` body does contain `user_ext(ROOT, USER_ID)` and the
filters are rebound to `USER_ID`, but the claimed filter variable
`AGE_USER_ID` occurs nowhere in the output: the emitted variable is
`AGE_USERS_1`, built from the node's child variable `USERS_1`, as the
fourth conjunct (the actual rule) shows. -/
theorem c5_counterexample :
    (strContains c5Out "AGE_USER_ID" = false) ∧
    (strContains c5Out "user_ext(ROOT, USER_ID)" = true) ∧
    ((strLines c5Out).contains
      "users_result(ROOT) :- users_ext(ROOT), user_ext(ROOT, USER_ID), age_ext(USER_ID, AGE_USER_ID), AGE_USER_ID @>= 18, age_ext(USER_ID, AGE_USER_ID), AGE_USER_ID @=< 65."
      = false) ∧
    ((strLines c5Out).contains
      "users_result(ROOT) :- users_ext(ROOT), user_ext(ROOT, USER_ID), age_ext(USER_ID, AGE_USERS_1), AGE_USERS_1 @>= 18, age_ext(USER_ID, AGE_USERS_1), AGE_USERS_1 @=< 65."
      = true) :=
  ⟨rfl, rfl, rfl, rfl⟩

/-- C5 (amended): for `{ users(minAge: 18, maxAge: 65) { name } }`, the
`users_result` rule body contains `user_ext(ROOT, USER_ID)` and rebinds
the subsequent argument filters to `USER_ID`, yielding the goals
`age_ext(USER_ID, AGE_USERS_1)` with `AGE_USERS_1 @>= 18` and
`AGE_USERS_1 @=< 65` (the filter value variable is formed from the
filter name and the node's child variable `USERS_1`, not from the record
variable), and the body of the `ans` rule contains the spliced prologue
goals `user_ext(ROOT, USER_ID)` and `USER_1 = USER_ID`. -/
theorem c5_amended :
    ((strLines c5Out).contains
      "users_result(ROOT) :- users_ext(ROOT), user_ext(ROOT, USER_ID), age_ext(USER_ID, AGE_USERS_1), AGE_USERS_1 @>= 18, age_ext(USER_ID, AGE_USERS_1), AGE_USERS_1 @=< 65."
      = true) ∧
    ((strLines c5Out).filter (fun l => strStartsWith l "ans(") =
      ["ans(USERS_NAME) :- users_ext(ROOT), users_result(ROOT), user_ext(ROOT, USER_ID), USER_1 = USER_ID, users_name_result(USERS_1, USERS_NAME), users_name_result(USERS_1, NAME_2)."]) :=
  ⟨rfl, rfl⟩

/-! ### Claim C7 -/

/-- A document whose two fragments reference each other cyclically
(`fragment F = { ...G }`, `fragment G = { ...F }`), spread under the
field `a` of an anonymous operation. -/
def c7CycDoc : Document :=
  ⟨[Selections.cons (.fieldS (.mk none "a" [] (Selections.cons (.fragS "F") .nil))) .nil],
   [("F", Selections.cons (.fragS "G") .nil), ("G", Selections.cons (.fragS "F") .nil)]⟩

/-- An acyclic document with a fragment spread nested inside a fragment
definition: `fragment H = { ...K }`, `fragment K = { x }`, query
`{ a { ...H } }`. -/
def c7NestDoc : Document :=
  ⟨[Selections.cons (.fieldS (.mk none "a" [] (Selections.cons (.fragS "H") .nil))) .nil],
   [("H", Selections.cons (.fragS "K") .nil),
    ("K", Selections.cons (.fieldS (.mk none "x" [] .nil)) .nil)]⟩

/-- C7 (counterexample): parsing the cyclic-fragment document succeeds —
there is no `FragmentCycle` error (the result is the field `a` with no
subfields; the cyclic spread is silently dropped, because expanding a
spread keeps only the `FieldNode` members of the fragment body).  And on
the acyclic nested-fragment document the spread `...K` inside fragment
`H` is NOT resolved recursively: the field `x` of `K` is dropped and `a`
again has no subfields, refuting the claimed recursive inlining. -/
theorem c7_counterexample :
    parse_query 100 c7CycDoc =
      some ([QueryField.mk "a" [] QFields.nil "ROOT" "A_1"], ⟨2, [("a", "A_1")]⟩) ∧
    parse_query 100 c7NestDoc =
      some ([QueryField.mk "a" [] QFields.nil "ROOT" "A_1"], ⟨2, [("a", "A_1")]⟩) :=
  ⟨rfl, rfl⟩

/-- C7 (amended): when a fragment spread is expanded, only the direct
`FieldNode` members of the named fragment's selection set are inlined at
the spread position; spreads nested directly inside the fragment body are
skipped, not resolved (first two conjuncts: the expansion step builds
exactly `fieldsOf` of the fragment body, and `fieldsOf` drops spread
members).  Consequently a document whose fragment definitions reference
each other cyclically parses successfully with the cyclic selections
dropped, rather than failing with a distinct FragmentCycle error (no such
error exists in the translator): third conjunct. -/
theorem c7_amended : (∀ (fm : List (String × Selections)) (fuel : Nat) (n : String)
      (fsels rest : Selections) (cv path : String) (st : PState),
      lookupFrag fm n = some fsels →
      buildSelections fm (fuel + 1) (Selections.cons (Selection.fragS n) rest) cv path st =
        (match buildFieldList fm fuel (fieldsOf fsels) cv path st with
         | none => none
         | some (qs1, st1) =>
           match buildSelections fm fuel rest cv path st1 with
           | none => none
           | some (qs2, st2) => some (qfAppend qs1 qs2, st2))) ∧
    (∀ (m : String) (ss : Selections),
      fieldsOf (Selections.cons (Selection.fragS m) ss) = fieldsOf ss) ∧
    (parse_query 100 c7CycDoc).isSome = true := by
  refine ⟨?_, fun m ss => rfl, rfl⟩
  intro fm fuel n fsels rest cv path st h
  simp [buildSelections, h]

/-- The fragment body `{ x }` used by the C7 witness. -/
def c7FragBody : Selections := Selections.cons (.fieldS (.mk none "x" [] .nil)) .nil

/-- The one-fragment map used by the C7 witness. -/
def c7FragMap : List (String × Selections) := [("F", c7FragBody)]

/-- C7 (witness): the amended expansion equation applied at a concrete
fragment map, discharging its lookup hypothesis. -/
theorem c7_amended_witness :
    lookupFrag c7FragMap "F" = some c7FragBody ∧
    buildSelections c7FragMap 5
        (Selections.cons (Selection.fragS "F") .nil) "ROOT" "" ⟨1, []⟩ =
      (match buildFieldList c7FragMap 4 (fieldsOf c7FragBody) "ROOT" "" ⟨1, []⟩ with
       | none => none
       | some (qs1, st1) =>
         match buildSelections c7FragMap 4 Selections.nil "ROOT" "" st1 with
         | none => none
         | some (qs2, st2) => some (qfAppend qs1 qs2, st2)) :=
  ⟨rfl, c7_amended.1 c7FragMap 4 "F" c7FragBody Selections.nil "ROOT" "" ⟨1, []⟩ rfl⟩

/-! ### Claim C8 -/

/-- A query whose single field carries a variable argument:
`{ f(x: $v) }`. -/
def c8Doc : Document :=
  ⟨[Selections.cons (.fieldS (.mk none "f" [("x", ArgValue.varV "v")] .nil)) .nil], []⟩

/-- C8 (counterexample): parsing `{ f(x: $v) }` — a selection whose
argument value is a variable, not a supported literal — succeeds, and the
resulting field has an EMPTY argument list: the unsupported argument is
silently dropped and parsing continues.  There is no UnsupportedArgument
failure (no such error exists in the translator). -/
theorem c8_counterexample :
    parse_query 10 c8Doc =
      some ([QueryField.mk "f" [] QFields.nil "ROOT" "F_1"], ⟨2, [("f", "F_1")]⟩) :=
  rfl

/-- Replace a node's argument list (used to state that argument handling
is independent of the rest of the build). -/
def setArguments : QueryField → List (String × String) → QueryField
  | .mk n _ s p c, args => .mk n args s p c

/-- C8 (amended): argument values without a literal `value` payload —
variables, list values, input objects — are silently dropped by
`build_query_field` and never cause a failure: building a field with any
argument list `args` succeeds exactly when building it with no arguments
succeeds, and differs only in that the stored argument list is
`extractArgs args`, whose extraction returns `none` precisely on the
unsupported value kinds (last three conjuncts). -/
theorem c8_amended : (∀ (fm : List (String × Selections)) (fuel : Nat) (al : Option String)
      (nm : String) (args : List (String × ArgValue)) (sels : Selections)
      (pv pp : String) (st : PState),
      buildField fm (fuel + 1) (FieldAst.mk al nm args sels) pv pp st =
        (buildField fm (fuel + 1) (FieldAst.mk al nm [] sels) pv pp st).map
          (fun r => (setArguments r.1 (extractArgs args), r.2))) ∧
    (∀ s, argLit (ArgValue.varV s) = none) ∧
    argLit ArgValue.listV = none ∧
    argLit ArgValue.objV = none := by
  refine ⟨?_, fun s => rfl, rfl, rfl⟩
  intro fm fuel al nm args sels pv pp st
  simp only [buildField]
  cases buildSelections fm fuel sels (varForPath (joinPath pp (al.getD nm)) (al.getD nm) st).1
      (joinPath pp (al.getD nm)) (varForPath (joinPath pp (al.getD nm)) (al.getD nm) st).2 with
  | none => rfl
  | some r => rfl

/-! ### Claim C10 -/

/-- C10: the emitted Datalog text is independent of the schema — the
`schema` parameter of `generate_xsb_for_query` is received but never
consulted, so for any two parsed schemas, any parsed query and any demand
flag the outputs coincide. -/
theorem c10_schema_independent : ∀ (s1 s2 : List SchemaType) (q : List QueryField) (d : Bool),
    generate_xsb_for_query s1 q d = generate_xsb_for_query s2 q d :=
  fun _ _ _ _ => rfl

/-! ### Claim C9 -/

/-- The head of a (nonempty, as proved where used) root list. -/
def headRoot (l : List QueryField) : QueryField :=
  match l with
  | f :: _ => f
  | [] => QueryField.mk "" [] .nil "" ""

/-- The parsed `users(minAge: 18, maxAge: 65) { name }` root node. -/
def c5UsersNode : QueryField := headRoot (parsedRoots (parse_query 10 c5Doc))

/-- C9 (counterexample): rule emission DOES modify the selection tree.
The parsed `users` node has `parent_var = "ROOT"`; after
`generate_predicate_rules` has processed it (filtered-collection branch),
its `parent_var` is `"USER_ID"`. -/
theorem c9_counterexample :
    c5UsersNode.parentVar = "ROOT" ∧
    ((generate_predicate_rules c5UsersNode none "").1).parentVar = "USER_ID" :=
  ⟨rfl, rfl⟩

mutual
/-- Specification of the (only) tree modification performed by
`generate_predicate_rules`: every node keeps its name, arguments,
subfield structure and child variable, and `parent_var` is rebound to
`<SINGULAR>_ID` exactly on the non-scalar nodes whose arguments match the
filtered-collection heuristic (some range/boolean argument and no
reserved lookup argument name); all other nodes keep their
`parent_var`. -/
def rebind_spec : QueryField → QueryField
  | .mk nm args subs pv cv =>
    let scalar := match subs with | .nil => true | .cons _ _ => false
    let pv2 := if !scalar && !args.isEmpty && hasFilterArgs args && !hasLookupArgs args then
        strUpper (singularName nm) ++ "_ID"
      else pv
    .mk nm args (rebind_specs subs) pv2 cv

def rebind_specs : QFields → QFields
  | .nil => .nil
  | .cons f fs => .cons (rebind_spec f) (rebind_specs fs)
end

mutual
theorem predRules_tree_spec : ∀ (f : QueryField) (d : Option DemandInfo) (path : String),
    (generate_predicate_rules f d path).1 = rebind_spec f
  | .mk nm args subs pv cv, d, path => by
    simp only [generate_predicate_rules, rebind_spec]
    rw [predRulesList_tree_spec subs (path ++ nm ++ "_")]
    by_cases h : ((!match subs with | .nil => true | .cons _ _ => false) && !args.isEmpty &&
        hasFilterArgs args && !hasLookupArgs args) = true
    · simp only [h, if_true]
    · simp only [eq_false_of_ne_true h, if_false, Bool.false_eq_true]

theorem predRulesList_tree_spec : ∀ (fs : QFields) (path : String),
    (genPredRulesList fs path).1 = rebind_specs fs
  | .nil, _ => rfl
  | .cons f fs, path => by
    simp only [genPredRulesList, rebind_specs]
    rw [predRules_tree_spec f none path, predRulesList_tree_spec fs path]
end

/-- C9 (amended): after `generate_predicate_rules` has run, the selection
tree equals `rebind_spec` of its input — every node keeps its name,
arguments, subfield structure and child_var, and only the
filtered-collection nodes get `parent_var` rebound to `<SINGULAR>_ID` —
for every node, demand info and path. -/
theorem c9_amended : ∀ (f : QueryField) (d : Option DemandInfo) (path : String),
    (generate_predicate_rules f d path).1 = rebind_spec f :=
  predRules_tree_spec

/-! ### Claim C4 -/

/-- C4 (counterexample): for `{ project(name: "GraphQL") { tagline } }`
with demand enabled, the nested no-argument node `tagline` produces the
demand rule `demand_tagline__(PROJECT_1) :- m_tagline_ext(PROJECT_1).`
— the predicate in the body is built from the NODE'S OWN name
(`m_tagline_ext`), not from the enclosing parent field's name: the rule
the claim requires, `demand_tagline__(PROJECT_1) :- m_project_ext(PROJECT_1).`,
is not in the output. -/
theorem c4_counterexample :
    ((strLines c2Out).contains "demand_tagline__(PROJECT_1) :- m_tagline_ext(PROJECT_1)."
      = true) ∧
    ((strLines c2Out).contains "demand_tagline__(PROJECT_1) :- m_project_ext(PROJECT_1)."
      = false) ∧
    (strContains c2Out "m_project_ext" = false) :=
  ⟨rfl, rfl, rfl⟩


/-- C4 (amended): for every nested node with no arguments (demand applied
because depth > 0), the analyser emits the demand rule
`demand_<name>_<ad>(<parent_var>) :- m_<name>_ext(<parent_var>).` — the
field in the body predicate `m_..._ext` is the node's OWN name, not the
enclosing parent field's name — immediately followed (each after its
comment line) by the magic rule
`m_<name>_<ad>(<parent_var>) :- demand_<name>_<ad>(<parent_var>).`,
provided neither rule was emitted before (the `seen` guards); whatever
the node's subfields emit follows as `tail`. -/
theorem c4_amended (nm : String) (subs : QFields) (pv cv : String)
    (seen : List String) (depth : Nat)
    (hdepth : 0 < depth)
    (hdr : (("demand_" ++ nm ++ "_" ++ bound_mask []) ++ "(" ++ pv ++ ") :- m_" ++ nm ++
      "_ext(" ++ pv ++ ").") ∉ seen)
    (hmr : (("m_" ++ nm ++ "_" ++ bound_mask []) ++ "(" ++ pv ++ ") :- " ++
      ("demand_" ++ nm ++ "_" ++ bound_mask []) ++ "(" ++ pv ++ ").") ∉ seen) :
    ∃ tail,
      (generate_demand_transformation (QueryField.mk nm [] subs pv cv) seen depth).2.1 =
        ["% Propagate demand to " ++ nm ++ " fields",
         ("demand_" ++ nm ++ "_" ++ bound_mask []) ++ "(" ++ pv ++ ") :- m_" ++ nm ++
           "_ext(" ++ pv ++ ").",
         "% Magic predicate for " ++ nm,
         ("m_" ++ nm ++ "_" ++ bound_mask []) ++ "(" ++ pv ++ ") :- " ++
           ("demand_" ++ nm ++ "_" ++ bound_mask []) ++ "(" ++ pv ++ ")."] ++ tail := by
  have hd0 : (depth == 0) = false := by
    simp only [beq_eq_false_iff_ne, ne_eq]
    omega
  have hmr' : (("m_" ++ nm ++ "_" ++ bound_mask []) ++ "(" ++ pv ++ ") :- " ++
      ("demand_" ++ nm ++ "_" ++ bound_mask []) ++ "(" ++ pv ++ ").") ∉
      seen ++ [("demand_" ++ nm ++ "_" ++ bound_mask []) ++ "(" ++ pv ++ ") :- m_" ++ nm ++
        "_ext(" ++ pv ++ ")."] := by
    intro h
    rcases List.mem_append.mp h with h | h
    · exact hmr h
    · have heq := List.mem_singleton.mp h
      have hdata := congrArg String.data heq
      simp only [String.data_append] at hdata
      have h2 := congrArg (fun l => l.take 2) hdata
      simp at h2
  refine ⟨(genDemandSubs nm pv ("m_" ++ nm ++ "_" ++ bound_mask []) subs
      (seen ++ [("demand_" ++ nm ++ "_" ++ bound_mask []) ++ "(" ++ pv ++ ") :- m_" ++ nm ++
        "_ext(" ++ pv ++ ")."] ++ [("m_" ++ nm ++ "_" ++ bound_mask []) ++ "(" ++ pv ++
        ") :- " ++ ("demand_" ++ nm ++ "_" ++ bound_mask []) ++ "(" ++ pv ++ ")."])
      depth 0).2.1, ?_⟩
  simp only [generate_demand_transformation, List.isEmpty_nil, Bool.true_and, hd0,
    Bool.false_eq_true, if_false, Bool.not_true, List.isEmpty_eq_true]
  simp [hdepth, hdr, hmr']

/-- C4 (witness): the amended statement applied to the concrete nested
node `tagline` of scenario S3 (depth 1, empty seen set), discharging all
hypotheses. -/
theorem c4_amended_witness :
    0 < 1 ∧
    ((("demand_" ++ "tagline" ++ "_" ++ bound_mask []) ++ "(" ++ "PROJECT_1" ++
      ") :- m_" ++ "tagline" ++ "_ext(" ++ "PROJECT_1" ++ ").") ∉ ([] : List String)) ∧
    ((("m_" ++ "tagline" ++ "_" ++ bound_mask []) ++ "(" ++ "PROJECT_1" ++ ") :- " ++
      ("demand_" ++ "tagline" ++ "_" ++ bound_mask []) ++ "(" ++ "PROJECT_1" ++ ").") ∉
      ([] : List String)) ∧
    ∃ tail,
      (generate_demand_transformation
          (QueryField.mk "tagline" [] QFields.nil "PROJECT_1" "TAGLINE_2") [] 1).2.1 =
        ["% Propagate demand to " ++ "tagline" ++ " fields",
         ("demand_" ++ "tagline" ++ "_" ++ bound_mask []) ++ "(" ++ "PROJECT_1" ++
           ") :- m_" ++ "tagline" ++ "_ext(" ++ "PROJECT_1" ++ ").",
         "% Magic predicate for " ++ "tagline",
         ("m_" ++ "tagline" ++ "_" ++ bound_mask []) ++ "(" ++ "PROJECT_1" ++ ") :- " ++
           ("demand_" ++ "tagline" ++ "_" ++ bound_mask []) ++ "(" ++ "PROJECT_1" ++ ")."] ++
          tail :=
  ⟨Nat.one_pos, List.not_mem_nil _, List.not_mem_nil _,
    c4_amended "tagline" QFields.nil "PROJECT_1" "TAGLINE_2" [] 1 Nat.one_pos
      (List.not_mem_nil _) (List.not_mem_nil _)⟩

/-! ### Claim C3 -/

mutual
/-- With no demand info (the emitter's recursive calls all pass `None`),
every emitted rule's body begins with the node's own external predicate
goal `<name>_ext(...)` — never with a magic goal. -/
theorem predRules_ext_first : ∀ (f : QueryField) (path r : String),
    r ∈ (generate_predicate_rules f none path).2 →
    ∃ sig nm rest body, r = mkRule sig ((nm ++ ("_ext(" ++ rest)) :: body)
  | .mk nm args subs pv cv, path, r, hr => by
    cases subs with
    | nil =>
      simp only [generate_predicate_rules] at hr
      rcases List.mem_cons.mp hr with h | h
      · rw [h]
        simp only [String.append_assoc, if_true, List.nil_append, List.singleton_append]
        simp [String.append_assoc]
        exact ⟨_, _, _, _, rfl⟩
      · exact predRulesList_ext_first .nil _ r h
    | cons s ss =>
      simp only [generate_predicate_rules] at hr
      rcases List.mem_cons.mp hr with h | h
      · rw [h]
        by_cases hc : (!args.isEmpty && hasFilterArgs args && !hasLookupArgs args) = true
        · simp [hc, String.append_assoc]
          exact ⟨_, _, _, _, rfl⟩
        · simp [eq_false_of_ne_true hc, String.append_assoc]
          exact ⟨_, _, _, _, rfl⟩
      · exact predRulesList_ext_first (.cons s ss) _ r h

theorem predRulesList_ext_first : ∀ (fs : QFields) (path r : String),
    r ∈ (genPredRulesList fs path).2 →
    ∃ sig nm rest body, r = mkRule sig ((nm ++ ("_ext(" ++ rest)) :: body)
  | .nil, path, r, hr => by simp [genPredRulesList] at hr
  | .cons f fs, path, r, hr => by
    simp only [genPredRulesList, List.mem_append] at hr
    rcases hr with h | h
    · exact predRules_ext_first f path r h
    · exact predRulesList_ext_first fs path r h
end

/-- C3 (amended): a node's `<path>_result` rule body begins with the goal
`<magic_pred>(<parent_var>)` exactly when the emitter is handed an
applied `DemandInfo` for it — which `generate_xsb_for_query` does only
for root fields (its recursion passes `None` for every subfield).  First
conjunct: with an applied info the node's own rule has the magic goal
first and is followed by the subfield rules; second and third conjuncts:
every rule produced under `None` demand info — in particular every rule
of every nested node, even though the demand analyser marks nested nodes
as `applied` — begins with the node's own `<name>_ext(...)` goal instead,
so no nested `<path>_result` rule carries a magic goal. -/
theorem c3_amended (f : QueryField) (i : DemandInfo) (path : String)
    (happ : i.applied = true) :
    (∃ sig rest,
      (generate_predicate_rules f (some i) path).2 =
        mkRule sig ((i.magicPred ++ "(" ++ f.parentVar ++ ")") :: rest) ::
          (genPredRulesList f.subfields (path ++ f.name ++ "_")).2) ∧
    (∀ r ∈ (genPredRulesList f.subfields (path ++ f.name ++ "_")).2,
      ∃ sig2 nm2 rest2 body2, r = mkRule sig2 ((nm2 ++ ("_ext(" ++ rest2)) :: body2)) ∧
    (∀ (g : QueryField) (p r : String), r ∈ (generate_predicate_rules g none p).2 →
      ∃ sig3 nm3 rest3 body3, r = mkRule sig3 ((nm3 ++ ("_ext(" ++ rest3)) :: body3)) := by
  refine ⟨?_, fun r hr => predRulesList_ext_first _ _ r hr,
    fun g p r hr => predRules_ext_first g p r hr⟩
  obtain ⟨nm, args, subs, pv, cv⟩ := f
  simp only [generate_predicate_rules, QueryField.subfields, QueryField.name,
    QueryField.parentVar, happ, if_true]
  exact ⟨_, _, rfl⟩

/-- The node used by the C3 witness. -/
def c3wF : QueryField := QueryField.mk "p" [] QFields.nil "ROOT" "P_1"

/-- The applied demand info used by the C3 witness. -/
def c3wI : DemandInfo := { applied := true, magicPred := "m_p__" }

/-- C3 (witness): the amended statement applied at a concrete node and
applied demand info, discharging the `applied` hypothesis. -/
theorem c3_amended_witness :
    c3wI.applied = true ∧
    ((∃ sig rest,
        (generate_predicate_rules c3wF (some c3wI) "").2 =
          mkRule sig ((c3wI.magicPred ++ "(" ++ c3wF.parentVar ++ ")") :: rest) ::
            (genPredRulesList c3wF.subfields ("" ++ c3wF.name ++ "_")).2) ∧
      (∀ r ∈ (genPredRulesList c3wF.subfields ("" ++ c3wF.name ++ "_")).2,
        ∃ sig2 nm2 rest2 body2, r = mkRule sig2 ((nm2 ++ ("_ext(" ++ rest2)) :: body2)) ∧
      (∀ (g : QueryField) (p r : String), r ∈ (generate_predicate_rules g none p).2 →
        ∃ sig3 nm3 rest3 body3, r = mkRule sig3 ((nm3 ++ ("_ext(" ++ rest3)) :: body3))) :=
  ⟨rfl, c3_amended c3wF c3wI "" rfl⟩

/-- C3 (counterexample): in the S3 compile (demand on), demand IS applied
to the nested node `tagline` (depth 1) — witnessed by the demand rules it
contributes to the output — and yet its result rule is
`project_tagline_result(PROJECT_1, TAGLINE_2) :- tagline_ext(PROJECT_1, TAGLINE_2).`,
whose body begins with the external goal, not with the magic goal
`m_tagline__(PROJECT_1)`: no line of the output starts with
`project_tagline_result(PROJECT_1, TAGLINE_2) :- m_`. -/
theorem c3_counterexample :
    ((strLines c2Out).contains "m_tagline__(PROJECT_1) :- demand_tagline__(PROJECT_1)."
      = true) ∧
    ((strLines c2Out).contains
      "project_tagline_result(PROJECT_1, TAGLINE_2) :- tagline_ext(PROJECT_1, TAGLINE_2)."
      = true) ∧
    ((strLines c2Out).any
      (fun l => strStartsWith l "project_tagline_result(PROJECT_1, TAGLINE_2) :- m_")
      = false) :=
  ⟨rfl, rfl, rfl⟩

/-! ### Claim C6 — infrastructure

The claim is about `parse_query`'s variable allocation: equal `child_var`
iff equal dotted path, names of the form `<LAST_SEGMENT_UPPER>_<counter>`
with counters minted in strictly increasing pre-order (first-occurrence)
order, and `"ROOT"` as the top-level parent variable. -/

/-- Insert keys in first-occurrence order (ignoring repeats). -/
def addKeys (ks ps : List String) : List String :=
  ps.foldl (fun a p => if p ∈ a then a else a ++ [p]) ks

mutual
/-- All `(dotted path, child_var)` pairs of a selection tree, pre-order. -/
def collectPV (pp : String) : QueryField → List (String × String)
  | .mk nm _ subs _ cv => (joinPath pp nm, cv) :: collectPVs (joinPath pp nm) subs
def collectPVs (pp : String) : QFields → List (String × String)
  | .nil => []
  | .cons f fs => collectPV pp f ++ collectPVs pp fs
end

mutual
/-- All `(field name, child_var)` pairs of a selection tree, pre-order. -/
def collectNV : QueryField → List (String × String)
  | .mk nm _ subs _ cv => (nm, cv) :: collectNVs subs
def collectNVs : QFields → List (String × String)
  | .nil => []
  | .cons f fs => collectNV f ++ collectNVs fs
end

def collectPVRoots (roots : List QueryField) : List (String × String) :=
  roots.flatMap (collectPV "")

def collectNVRoots (roots : List QueryField) : List (String × String) :=
  roots.flatMap collectNV

mutual
/-- Every (effective) field name in the AST is dot-free, as the GraphQL
name grammar guarantees for real parsed queries. -/
def fieldDotFree : FieldAst → Bool
  | .mk al nm _ sels => dotFree (al.getD nm) && selsDotFree sels
def selDotFree : Selection → Bool
  | .fieldS f => fieldDotFree f
  | .fragS _ => true
  | .inlineS ss => selsDotFree ss
def selsDotFree : Selections → Bool
  | .nil => true
  | .cons s rest => selDotFree s && selsDotFree rest
end

def fmDotFree (fm : List (String × Selections)) : Bool := fm.all (fun e => selsDotFree e.2)

def docDotFree (doc : Document) : Bool :=
  doc.operations.all selsDotFree && fmDotFree doc.fragments

/-- Invariant of the variable-allocation state: every cache entry's value
is `mkVarName b n` for the (dot-free) last segment `b` of its key and a
positive counter `n = vcnt` below the running counter, and the counters
are strictly increasing in insertion order. -/
structure CacheInv (st : PState) : Prop where
  posCounter : 0 < st.counter
  entries : ∀ e ∈ st.cache, ∃ b, dotFree b = true ∧ 0 < vcnt e.2 ∧
    e.2 = mkVarName b (vcnt e.2) ∧ lastSegRel e.1 b ∧ vcnt e.2 < st.counter
  ordered : st.cache.Pairwise (fun a b => vcnt a.2 < vcnt b.2)

theorem lookupC_some_mem {cache : List (String × String)} {p v : String}
    (h : lookupC cache p = some v) : (p, v) ∈ cache := by
  unfold lookupC at h
  cases hf : cache.find? (fun e => e.1 == p) with
  | none => rw [hf] at h; cases h
  | some e =>
    rw [hf] at h
    have h2 : e.2 = v := by simpa using h
    have hbeq : (e.1 == p) = true := by
      have h3 := List.find?_some hf
      simpa using h3
    have hkey : e.1 = p := by simpa using hbeq
    have hmem := List.mem_of_find?_eq_some hf
    have : e = (p, v) := by
      obtain ⟨e1, e2⟩ := e
      simp only [Prod.mk.injEq]
      exact ⟨hkey, h2⟩
    rw [← this]
    exact hmem

theorem lookupC_append_some {c1 c2 : List (String × String)} {p v : String}
    (h : lookupC c1 p = some v) : lookupC (c1 ++ c2) p = some v := by
  unfold lookupC at *
  rw [List.find?_append]
  cases hf : c1.find? (fun e => e.1 == p) with
  | none => rw [hf] at h; simp at h
  | some e =>
    rw [hf] at h
    simpa using h

theorem lookupC_prefix_some {c1 c2 : List (String × String)} {p v : String}
    (hpre : c1 <+: c2) (h : lookupC c1 p = some v) : lookupC c2 p = some v := by
  obtain ⟨t, rfl⟩ := hpre
  exact lookupC_append_some h

theorem lookupC_none_not_mem {cache : List (String × String)} {p : String}
    (h : lookupC cache p = none) : p ∉ cache.map Prod.fst := by
  unfold lookupC at h
  cases hf : cache.find? (fun e => e.1 == p) with
  | some e => rw [hf] at h; cases h
  | none =>
    intro hmem
    obtain ⟨e, he, hfst⟩ := List.mem_map.mp hmem
    have := List.find?_eq_none.mp hf e he
    simp [hfst] at this

theorem lookupC_mem_keys {cache : List (String × String)} {p v : String}
    (h : lookupC cache p = some v) : p ∈ cache.map Prod.fst :=
  List.mem_map.mpr ⟨(p, v), lookupC_some_mem h, rfl⟩

theorem pairwise_vcnt_inj {l : List (String × String)}
    (hp : l.Pairwise (fun a b => vcnt a.2 < vcnt b.2)) :
    ∀ {a b : String × String}, a ∈ l → b ∈ l → vcnt a.2 = vcnt b.2 → a = b := by
  induction l with
  | nil => intro a b ha; cases ha
  | cons x xs ih =>
    intro a b ha hb heq
    have hx : ∀ y ∈ xs, vcnt x.2 < vcnt y.2 := (List.pairwise_cons.mp hp).1
    have hxs := (List.pairwise_cons.mp hp).2
    rcases List.mem_cons.mp ha with ha2 | ha2 <;> rcases List.mem_cons.mp hb with hb2 | hb2
    · rw [ha2, hb2]
    · subst ha2; exact absurd heq (by have := hx b hb2; omega)
    · subst hb2; exact absurd heq (by have := hx a ha2; omega)
    · exact ih hxs ha2 hb2 heq

theorem addKeys_append (ks l1 l2 : List String) :
    addKeys ks (l1 ++ l2) = addKeys (addKeys ks l1) l2 := by
  unfold addKeys
  exact List.foldl_append _ _ l1 l2

theorem addKeys_cons (ks : List String) (p : String) (rest : List String) :
    addKeys ks (p :: rest) = addKeys (addKeys ks [p]) rest := rfl

theorem addKeys_single_mem {ks : List String} {p : String} (h : p ∈ ks) :
    addKeys ks [p] = ks := by
  simp [addKeys, h]

theorem addKeys_single_not_mem {ks : List String} {p : String} (h : p ∉ ks) :
    addKeys ks [p] = ks ++ [p] := by
  simp [addKeys, h]

/-- The state evolution contract of one build step: the invariant is
preserved, the cache grows by suffixing, the counter grows, every
`(path, var)` pair collected from the built nodes is resident in the
final cache, and the new cache keys are exactly the first occurrences of
the collected paths, in order. -/
def StEvolve (st st' : PState) (pvs : List (String × String)) : Prop :=
  CacheInv st' ∧ st.cache <+: st'.cache ∧ st.counter ≤ st'.counter ∧
  (∀ e ∈ pvs, lookupC st'.cache e.1 = some e.2) ∧
  st'.cache.map Prod.fst = addKeys (st.cache.map Prod.fst) (pvs.map Prod.fst)

theorem stEvolve_refl {st : PState} (h : CacheInv st) : StEvolve st st [] :=
  ⟨h, List.prefix_refl _, Nat.le_refl _, fun e he => absurd he (List.not_mem_nil e), rfl⟩

theorem stEvolve_trans {st1 st2 st3 : PState} {l1 l2 : List (String × String)}
    (h1 : StEvolve st1 st2 l1) (h2 : StEvolve st2 st3 l2) :
    StEvolve st1 st3 (l1 ++ l2) := by
  obtain ⟨inv1, pre1, le1, res1, keys1⟩ := h1
  obtain ⟨inv2, pre2, le2, res2, keys2⟩ := h2
  refine ⟨inv2, pre1.trans pre2, Nat.le_trans le1 le2, ?_, ?_⟩
  · intro e he
    rcases List.mem_append.mp he with he | he
    · exact lookupC_prefix_some pre2 (res1 e he)
    · exact res2 e he
  · rw [List.map_append, addKeys_append, ← keys1, keys2]

theorem varForPath_spec (p base : String) (st : PState) (hInv : CacheInv st)
    (hb : dotFree base = true) (hrel : lastSegRel p base) :
    StEvolve st (varForPath p base st).2 [(p, (varForPath p base st).1)] ∧
    (∃ n, 0 < n ∧ (varForPath p base st).1 = mkVarName base n) := by
  unfold varForPath
  cases hl : lookupC st.cache p with
  | some v =>
    simp only []
    have hmem := lookupC_some_mem hl
    obtain ⟨b, hbdf, hpos, hform, hlast, hlt⟩ := hInv.entries (p, v) hmem
    have hbase : b = base := lastSegRel_unique hbdf hb hlast hrel
    refine ⟨⟨hInv, List.prefix_refl _, Nat.le_refl _, ?_, ?_⟩, ⟨vcnt v, hpos, by rw [← hbase]; exact hform⟩⟩
    · intro e he
      rw [List.mem_singleton.mp he]
      exact hl
    · simp only [List.map_cons, List.map_nil]
      rw [addKeys_single_mem (lookupC_mem_keys hl)]
  | none =>
    simp only []
    have hnot := lookupC_none_not_mem hl
    have hvc : vcnt (mkVarName base st.counter) = st.counter := vcnt_mkVarName base st.counter
    have hinv2 : CacheInv ⟨st.counter + 1, st.cache ++ [(p, mkVarName base st.counter)]⟩ := by
      refine ⟨Nat.succ_pos st.counter, ?_, ?_⟩
      · intro e he
        rcases List.mem_append.mp he with he | he
        · obtain ⟨b, h1, h2, h3, h4, h5⟩ := hInv.entries e he
          exact ⟨b, h1, h2, h3, h4, Nat.lt_succ_of_lt h5⟩
        · rw [List.mem_singleton.mp he]
          exact ⟨base, hb, by simp [hvc, hInv.posCounter], by simp [hvc], hrel, by simp [hvc]⟩
      · rw [List.pairwise_append]
        refine ⟨hInv.ordered, List.pairwise_singleton _ _, ?_⟩
        intro a ha b hb2
        rw [List.mem_singleton.mp hb2]
        simp only [hvc]
        obtain ⟨_, _, _, _, _, h5⟩ := hInv.entries a ha
        exact h5
    refine ⟨⟨hinv2, ⟨_, rfl⟩, by simp, ?_, ?_⟩, ⟨st.counter, hInv.posCounter, rfl⟩⟩
    · intro e he
      rw [List.mem_singleton.mp he]
      unfold lookupC
      rw [List.find?_append]
      have hf1 : st.cache.find? (fun e => e.1 == p) = none := by
        unfold lookupC at hl
        cases hf : st.cache.find? (fun e => e.1 == p) with
        | none => rfl
        | some e => rw [hf] at hl; simp at hl
      rw [hf1]
      simp [List.find?]
    · simp only [List.map_append, List.map_cons, List.map_nil]
      rw [addKeys_single_not_mem hnot]

theorem collectPVs_qfAppend (pp : String) : ∀ (a b : QFields),
    collectPVs pp (qfAppend a b) = collectPVs pp a ++ collectPVs pp b
  | .nil, b => by simp [qfAppend, collectPVs]
  | .cons f fs, b => by simp [qfAppend, collectPVs, collectPVs_qfAppend pp fs b]

theorem collectNVs_qfAppend : ∀ (a b : QFields),
    collectNVs (qfAppend a b) = collectNVs a ++ collectNVs b
  | .nil, b => by simp [qfAppend, collectNVs]
  | .cons f fs, b => by simp [qfAppend, collectNVs, collectNVs_qfAppend fs b]

theorem toList_qfAppend : ∀ (a b : QFields),
    (qfAppend a b).toList = a.toList ++ b.toList
  | .nil, b => by simp [qfAppend, QFields.toList]
  | .cons f fs, b => by simp [qfAppend, QFields.toList, toList_qfAppend fs b]

theorem collectPV_flatMap : ∀ (qs : QFields),
    qs.toList.flatMap (collectPV "") = collectPVs "" qs
  | .nil => by simp [QFields.toList, collectPVs]
  | .cons f fs => by simp [QFields.toList, collectPVs, collectPV_flatMap fs]

theorem collectNV_flatMap : ∀ (qs : QFields),
    qs.toList.flatMap collectNV = collectNVs qs
  | .nil => by simp [QFields.toList, collectNVs]
  | .cons f fs => by simp [QFields.toList, collectNVs, collectNV_flatMap fs]

theorem fieldsOf_dotFree : ∀ (ss : Selections), selsDotFree ss = true →
    ∀ f ∈ fieldsOf ss, fieldDotFree f = true
  | .nil, _ => by intro f hf; simp [fieldsOf] at hf
  | .cons s rest, h => by
    intro f hf
    have h1 : selDotFree s = true := by
      simp only [selsDotFree, Bool.and_eq_true] at h
      exact h.1
    have h2 : selsDotFree rest = true := by
      simp only [selsDotFree, Bool.and_eq_true] at h
      exact h.2
    cases s with
    | fieldS g =>
      simp only [fieldsOf, List.mem_cons] at hf
      rcases hf with rfl | hf
      · exact h1
      · exact fieldsOf_dotFree rest h2 f hf
    | fragS n => exact fieldsOf_dotFree rest h2 f (by simpa [fieldsOf] using hf)
    | inlineS isels => exact fieldsOf_dotFree rest h2 f (by simpa [fieldsOf] using hf)

theorem lookupFrag_dotFree {fm : List (String × Selections)} {n : String} {fsels : Selections}
    (hfm : fmDotFree fm = true) (h : lookupFrag fm n = some fsels) :
    selsDotFree fsels = true := by
  unfold lookupFrag at h
  cases hf : fm.reverse.find? (fun e => e.1 == n) with
  | none => rw [hf] at h; cases h
  | some e =>
    rw [hf] at h
    have h2 : e.2 = fsels := by simpa using h
    have hmem : e ∈ fm := List.mem_reverse.mp (List.mem_of_find?_eq_some hf)
    have := (List.all_eq_true.mp hfm) e hmem
    rw [← h2]
    simpa using this

/-- Conclusion of a successful `buildField` call. -/
def FieldConcl (pp pv : String) (st : PState) (r : QueryField × PState) : Prop :=
  StEvolve st r.2 (collectPV pp r.1) ∧
  (∀ e ∈ collectNV r.1, ∃ n, 0 < n ∧ e.2 = mkVarName e.1 n) ∧
  r.1.parentVar = pv

/-- Conclusion of a successful `buildSelections` / `buildFieldList` call. -/
def FieldsConcl (path cv : String) (st : PState) (r : QFields × PState) : Prop :=
  StEvolve st r.2 (collectPVs path r.1) ∧
  (∀ e ∈ collectNVs r.1, ∃ n, 0 < n ∧ e.2 = mkVarName e.1 n) ∧
  (∀ q ∈ r.1.toList, q.parentVar = cv)

theorem fieldsConcl_cons {path cv : String} {st st1 st2 : PState} {q : QueryField}
    {qs : QFields} (h1 : FieldConcl path cv st (q, st1))
    (h2 : FieldsConcl path cv st1 (qs, st2)) :
    FieldsConcl path cv st (QFields.cons q qs, st2) := by
  obtain ⟨e1, n1, p1⟩ := h1
  obtain ⟨e2, n2, p2⟩ := h2
  refine ⟨?_, ?_, ?_⟩
  · have := stEvolve_trans e1 e2
    simpa [collectPVs] using this
  · intro e he
    simp only [collectNVs, List.mem_append] at he
    rcases he with he | he
    · exact n1 e he
    · exact n2 e he
  · intro g hg
    simp only [QFields.toList, List.mem_cons] at hg
    rcases hg with rfl | hg
    · exact p1
    · exact p2 g hg

theorem fieldsConcl_append {path cv : String} {st st1 st2 : PState}
    {qs1 qs2 : QFields} (h1 : FieldsConcl path cv st (qs1, st1))
    (h2 : FieldsConcl path cv st1 (qs2, st2)) :
    FieldsConcl path cv st (qfAppend qs1 qs2, st2) := by
  obtain ⟨e1, n1, p1⟩ := h1
  obtain ⟨e2, n2, p2⟩ := h2
  refine ⟨?_, ?_, ?_⟩
  · have := stEvolve_trans e1 e2
    simpa [collectPVs_qfAppend] using this
  · intro e he
    rw [collectNVs_qfAppend] at he
    rcases List.mem_append.mp he with he | he
    · exact n1 e he
    · exact n2 e he
  · intro g hg
    rw [toList_qfAppend] at hg
    rcases List.mem_append.mp hg with hg | hg
    · exact p1 g hg
    · exact p2 g hg

theorem buildInv (fm : List (String × Selections)) (hfm : fmDotFree fm = true) :
    ∀ fuel : Nat,
    (∀ (fAst : FieldAst) (pv pp : String) (st : PState) (r : QueryField × PState),
      fieldDotFree fAst = true → CacheInv st →
      buildField fm fuel fAst pv pp st = some r → FieldConcl pp pv st r) ∧
    (∀ (sels : Selections) (cv path : String) (st : PState) (r : QFields × PState),
      selsDotFree sels = true → CacheInv st →
      buildSelections fm fuel sels cv path st = some r → FieldsConcl path cv st r) ∧
    (∀ (fl : List FieldAst) (cv path : String) (st : PState) (r : QFields × PState),
      (∀ f ∈ fl, fieldDotFree f = true) → CacheInv st →
      buildFieldList fm fuel fl cv path st = some r → FieldsConcl path cv st r) := by
  intro fuel
  induction fuel with
  | zero =>
    refine ⟨?_, ?_, ?_⟩ <;> intro a b c d e hdf hinv hb <;> simp [buildField, buildSelections, buildFieldList] at hb
  | succ fuel ih =>
    obtain ⟨ihF, ihS, ihL⟩ := ih
    refine ⟨?_, ?_, ?_⟩
    · -- buildField
      intro fAst pv pp st r hdf hinv hb
      obtain ⟨al, nm, args, sels⟩ := fAst
      have hname : dotFree (al.getD nm) = true := by
        simp only [fieldDotFree, Bool.and_eq_true] at hdf
        exact hdf.1
      have hsels : selsDotFree sels = true := by
        simp only [fieldDotFree, Bool.and_eq_true] at hdf
        exact hdf.2
      simp only [buildField] at hb
      obtain ⟨⟨vinv, vpre, vle, vres, vkeys⟩, vform⟩ :=
        varForPath_spec (joinPath pp (al.getD nm)) (al.getD nm) st hinv hname
          (lastSegRel_joinPath pp (al.getD nm))
      cases hsel : buildSelections fm fuel sels
          (varForPath (joinPath pp (al.getD nm)) (al.getD nm) st).1 (joinPath pp (al.getD nm))
          (varForPath (joinPath pp (al.getD nm)) (al.getD nm) st).2 with
      | none => rw [hsel] at hb; cases hb
      | some rs =>
        rw [hsel] at hb
        obtain ⟨subs, st2⟩ := rs
        have hr : r = (QueryField.mk (al.getD nm) (extractArgs args) subs pv
            (varForPath (joinPath pp (al.getD nm)) (al.getD nm) st).1, st2) := by
          simpa using hb.symm
        subst hr
        obtain ⟨se, sn, sp⟩ := ihS sels _ _ _ (subs, st2) hsels vinv hsel
        refine ⟨?_, ?_, rfl⟩
        · have := stEvolve_trans ⟨vinv, vpre, vle, vres, vkeys⟩ se
          simpa [collectPV] using this
        · intro e he
          simp only [collectPV, collectNV, List.mem_cons] at he
          rcases he with rfl | he
          · exact vform
          · exact sn e he
    · -- buildSelections
      intro sels cv path st r hdf hinv hb
      cases sels with
      | nil =>
        simp only [buildSelections] at hb
        have hr : r = (QFields.nil, st) := by simpa using hb.symm
        subst hr
        exact ⟨by simpa [collectPVs] using stEvolve_refl hinv,
          by intro e he; simp [collectNVs] at he,
          by intro q hq; simp [QFields.toList] at hq⟩
      | cons s rest =>
        have h1 : selDotFree s = true := by
          simp only [selsDotFree, Bool.and_eq_true] at hdf
          exact hdf.1
        have h2 : selsDotFree rest = true := by
          simp only [selsDotFree, Bool.and_eq_true] at hdf
          exact hdf.2
        cases s with
        | fieldS f =>
          simp only [buildSelections] at hb
          cases hf : buildField fm fuel f cv path st with
          | none => rw [hf] at hb; cases hb
          | some r1 =>
            rw [hf] at hb
            obtain ⟨q, st1⟩ := r1
            dsimp only at hb
            obtain ⟨fe, fn, fp⟩ := ihF f cv path st (q, st1) h1 hinv hf
            cases hrest : buildSelections fm fuel rest cv path st1 with
            | none => rw [hrest] at hb; cases hb
            | some r2 =>
              rw [hrest] at hb
              obtain ⟨qs, st2⟩ := r2
              have hr : r = (QFields.cons q qs, st2) := by simpa using hb.symm
              subst hr
              exact fieldsConcl_cons ⟨fe, fn, fp⟩ (ihS rest cv path st1 (qs, st2) h2 fe.1 hrest)
        | fragS n =>
          simp only [buildSelections] at hb
          cases hfr : lookupFrag fm n with
          | none => rw [hfr] at hb; cases hb
          | some fsels =>
            rw [hfr] at hb
            dsimp only at hb
            have hfsels : selsDotFree fsels = true := lookupFrag_dotFree hfm hfr
            cases hfl : buildFieldList fm fuel (fieldsOf fsels) cv path st with
            | none => rw [hfl] at hb; cases hb
            | some r1 =>
              rw [hfl] at hb
              obtain ⟨qs1, st1⟩ := r1
              dsimp only at hb
              have hc1 := ihL (fieldsOf fsels) cv path st (qs1, st1)
                (fieldsOf_dotFree fsels hfsels) hinv hfl
              cases hrest : buildSelections fm fuel rest cv path st1 with
              | none => rw [hrest] at hb; cases hb
              | some r2 =>
                rw [hrest] at hb
                obtain ⟨qs2, st2⟩ := r2
                have hr : r = (qfAppend qs1 qs2, st2) := by simpa using hb.symm
                subst hr
                exact fieldsConcl_append hc1 (ihS rest cv path st1 (qs2, st2) h2 hc1.1.1 hrest)
        | inlineS isels =>
          simp only [buildSelections] at hb
          have hisels : selsDotFree isels = true := by
            simpa [selDotFree] using h1
          cases hfl : buildFieldList fm fuel (fieldsOf isels) cv path st with
          | none => rw [hfl] at hb; cases hb
          | some r1 =>
            rw [hfl] at hb
            obtain ⟨qs1, st1⟩ := r1
            dsimp only at hb
            have hc1 := ihL (fieldsOf isels) cv path st (qs1, st1)
              (fieldsOf_dotFree isels hisels) hinv hfl
            cases hrest : buildSelections fm fuel rest cv path st1 with
            | none => rw [hrest] at hb; cases hb
            | some r2 =>
              rw [hrest] at hb
              obtain ⟨qs2, st2⟩ := r2
              have hr : r = (qfAppend qs1 qs2, st2) := by simpa using hb.symm
              subst hr
              exact fieldsConcl_append hc1 (ihS rest cv path st1 (qs2, st2) h2 hc1.1.1 hrest)
    · -- buildFieldList
      intro fl cv path st r hdf hinv hb
      cases fl with
      | nil =>
        simp only [buildFieldList] at hb
        have hr : r = (QFields.nil, st) := by simpa using hb.symm
        subst hr
        exact ⟨by simpa [collectPVs] using stEvolve_refl hinv,
          by intro e he; simp [collectNVs] at he,
          by intro q hq; simp [QFields.toList] at hq⟩
      | cons f fs =>
        simp only [buildFieldList] at hb
        cases hf : buildField fm fuel f cv path st with
        | none => rw [hf] at hb; cases hb
        | some r1 =>
          rw [hf] at hb
          obtain ⟨q, st1⟩ := r1
          dsimp only at hb
          obtain ⟨fe, fn, fp⟩ := ihF f cv path st (q, st1) (hdf f (by simp)) hinv hf
          cases hrest : buildFieldList fm fuel fs cv path st1 with
          | none => rw [hrest] at hb; cases hb
          | some r2 =>
            rw [hrest] at hb
            obtain ⟨qs, st2⟩ := r2
            have hr : r = (QFields.cons q qs, st2) := by simpa using hb.symm
            subst hr
            exact fieldsConcl_cons ⟨fe, fn, fp⟩
              (ihL fs cv path st1 (qs, st2) (fun g hg => hdf g (by simp [hg])) fe.1 hrest)

theorem rootsConcl (fm : List (String × Selections)) (hfm : fmDotFree fm = true) (fuel : Nat) :
    ∀ (ops : List Selections) (st : PState) (r : List QueryField × PState),
    (∀ op ∈ ops, selsDotFree op = true) → CacheInv st →
    rootsOfOps fm fuel ops st = some r →
    StEvolve st r.2 (collectPVRoots r.1) ∧
    (∀ e ∈ collectNVRoots r.1, ∃ n, 0 < n ∧ e.2 = mkVarName e.1 n) ∧
    (∀ q ∈ r.1, q.parentVar = "ROOT") := by
  intro ops
  induction ops with
  | nil =>
    intro st r hdf hinv hb
    simp only [rootsOfOps] at hb
    have hr : r = ([], st) := by simpa using hb.symm
    subst hr
    exact ⟨by simpa [collectPVRoots] using stEvolve_refl hinv,
      by intro e he; simp [collectNVRoots] at he,
      by intro q hq; simp at hq⟩
  | cons op rest ih =>
    intro st r hdf hinv hb
    simp only [rootsOfOps] at hb
    cases hfl : buildFieldList fm fuel (fieldsOf op) "ROOT" "" st with
    | none => rw [hfl] at hb; cases hb
    | some r1 =>
      rw [hfl] at hb
      obtain ⟨qs, st1⟩ := r1
      dsimp only at hb
      have hc1 := (buildInv fm hfm fuel).2.2 (fieldsOf op) "ROOT" "" st (qs, st1)
        (fieldsOf_dotFree op (hdf op (by simp))) hinv hfl
      cases hrest : rootsOfOps fm fuel rest st1 with
      | none => rw [hrest] at hb; cases hb
      | some r2 =>
        rw [hrest] at hb
        obtain ⟨roots2, st2⟩ := r2
        have hr : r = (qs.toList ++ roots2, st2) := by simpa using hb.symm
        subst hr
        obtain ⟨re, rn, rp⟩ := ih st1 (roots2, st2) (fun o ho => hdf o (by simp [ho])) hc1.1.1 hrest
        refine ⟨?_, ?_, ?_⟩
        · have := stEvolve_trans hc1.1 re
          simpa [collectPVRoots, List.flatMap_append, collectPV_flatMap] using this
        · intro e he
          simp only [collectNVRoots, List.flatMap_append, List.mem_append] at he
          rcases he with he | he
          · exact hc1.2.1 e (by rwa [collectNV_flatMap qs] at he)
          · exact rn e he
        · intro q hq
          rcases List.mem_append.mp hq with hq | hq
          · exact hc1.2.2 q hq
          · exact rp q hq

/-- C6: for every parsed query (over a document whose field names are
dot-free, as the GraphQL name grammar guarantees), variable allocation
satisfies: (1) any two selection-tree nodes have equal `child_var` iff
they have equal dotted selection paths; (2) every node's `child_var` has
the form `<LAST_SEGMENT_UPPER>_<counter>` — the upper-cased field name
(which is the last segment of the node's dotted path) followed by an
underscore and a positive decimal counter; (3) the top-level parent
variable is `ROOT`; (4) the mint counters recorded in the allocator cache
are strictly increasing in insertion order, and the cache keys are
exactly the first occurrences of the pre-order path sequence — i.e. the
counter increases monotonically over the pre-order first occurrences of
paths, where fresh variables are minted. -/
theorem c6_path_variable_bijection (fuel : Nat) (doc : Document)
    (roots : List QueryField) (stF : PState)
    (hparse : parse_query fuel doc = some (roots, stF))
    (hdf : docDotFree doc = true) :
    (∀ e1 ∈ collectPVRoots roots, ∀ e2 ∈ collectPVRoots roots, (e1.2 = e2.2 ↔ e1.1 = e2.1)) ∧
    (∀ e ∈ collectNVRoots roots, ∃ n, 0 < n ∧ e.2 = mkVarName e.1 n) ∧
    (∀ q ∈ roots, q.parentVar = "ROOT") ∧
    stF.cache.Pairwise (fun a b => vcnt a.2 < vcnt b.2) ∧
    stF.cache.map Prod.fst = addKeys [] ((collectPVRoots roots).map Prod.fst) := by
  have hops : ∀ op ∈ doc.operations, selsDotFree op = true := by
    simp only [docDotFree, Bool.and_eq_true] at hdf
    exact fun op hop => (List.all_eq_true.mp hdf.1) op hop
  have hfm : fmDotFree doc.fragments = true := by
    simp only [docDotFree, Bool.and_eq_true] at hdf
    exact hdf.2
  have hinv0 : CacheInv ⟨1, []⟩ :=
    ⟨Nat.one_pos, by intro e he; simp at he, List.Pairwise.nil⟩
  unfold parse_query at hparse
  obtain ⟨⟨inv2, _pre, _le, res, keys⟩, nv, proot⟩ :=
    rootsConcl doc.fragments hfm fuel doc.operations ⟨1, []⟩ (roots, stF) hops hinv0 hparse
  refine ⟨?_, nv, proot, inv2.ordered, keys⟩
  intro e1 he1 e2 he2
  constructor
  · intro hv
    have h1 := lookupC_some_mem (res e1 he1)
    have h2 := lookupC_some_mem (res e2 he2)
    have hvc : vcnt e1.2 = vcnt e2.2 := by rw [hv]
    have := pairwise_vcnt_inj inv2.ordered h1 h2 hvc
    exact congrArg Prod.fst this
  · intro hp
    have h1 := res e1 he1
    have h2 := res e2 he2
    rw [hp] at h1
    rw [h1] at h2
    exact Option.some.inj h2

/-- The root fields `parse_query` produces for `c1Doc`. -/
def c6wRoots : List QueryField :=
  [QueryField.mk "project" []
    (QFields.cons (QueryField.mk "tagline" [] QFields.nil "PROJECT_1" "TAGLINE_2") QFields.nil)
    "ROOT" "PROJECT_1"]

/-- The allocator state `parse_query` finishes with on `c1Doc`. -/
def c6wSt : PState := ⟨3, [("project", "PROJECT_1"), ("project.tagline", "TAGLINE_2")]⟩

/-- C6 (witness): the allocation theorem applied to the concrete parse of
`{ project { tagline } }`, discharging both hypotheses. -/
theorem c6_witness :
    parse_query 10 c1Doc = some (c6wRoots, c6wSt) ∧
    docDotFree c1Doc = true ∧
    ((∀ e1 ∈ collectPVRoots c6wRoots, ∀ e2 ∈ collectPVRoots c6wRoots,
        (e1.2 = e2.2 ↔ e1.1 = e2.1)) ∧
      (∀ e ∈ collectNVRoots c6wRoots, ∃ n, 0 < n ∧ e.2 = mkVarName e.1 n) ∧
      (∀ q ∈ c6wRoots, q.parentVar = "ROOT") ∧
      c6wSt.cache.Pairwise (fun a b => vcnt a.2 < vcnt b.2) ∧
      c6wSt.cache.map Prod.fst = addKeys [] ((collectPVRoots c6wRoots).map Prod.fst)) :=
  ⟨rfl, rfl, c6_path_variable_bijection 10 c1Doc c6wRoots c6wSt rfl rfl⟩
